import Mathlib

/-!
Verification of the migration-job orchestration core of
dxatscale/SFDX-Data-Move-Utility (`src/modules/models/job_models/migrationJob.ts`,
`src/modules/models/api_models/ApiEngineBase.ts`).

The TypeScript classes are shallowly embedded: entity descriptors
(`ScriptObject`) become a Lean structure of the fields the orchestrator reads,
stateful methods become pure functions over explicit state, awaited calls to
external collaborators (per-task retrieval, CRUD execution, prompting, CSV
writing) become oracle parameters or event traces, and the `setup` fix-up loop
(whose iteration count the `for` condition controls) becomes a fuel-indexed
function returning `Option` (`none` = the fuel ran out before the loop's exit
condition was reached).
-/

namespace SFDMU

/-- Entity descriptor: the fields of `ScriptObject` that `MigrationJob` reads.
`parentLookupNames` / `parentMasterDetailNames` are the names of
`parentLookupObjects` / `parentMasterDetailObjects`. -/
structure ScriptObject where
  name : String
  parentLookupNames : List String
  parentMasterDetailNames : List String
  allRecords : Bool
  isSpecialObject : Bool
  isObjectWithoutRelationships : Bool
  hasComplexExternalId : Bool
  hasAutonumberExternalId : Bool
  isReadonlyObject : Bool
  isLimitedQuery : Bool
  deriving DecidableEq, Repr

/-- CONSTANTS.RECORD_TYPE_SOBJECT_NAME from statics.ts. -/
def RECORD_TYPE_SOBJECT_NAME : String := "RecordType"

/-- Mirrors the `processAllSource` assignment in `MigrationJob.setup`
(migrationJob.ts lines 68-75): true iff `allRecords || isSpecialObject ||
isObjectWithoutRelationships`. -/
def processAllSource (o : ScriptObject) : Bool :=
  o.allRecords || o.isSpecialObject || o.isObjectWithoutRelationships

/-- State of the insertion phase of `MigrationJob.setup`: the `tasks` array
(each task is identified with its descriptor) and the two lower-bound counters
`lowerIndexForAnyObjects` and `lowerIndexForReadonlyObjects`. -/
structure SchedState where
  tasks : List ScriptObject
  lowerAny : Nat
  lowerReadonly : Nat
  deriving Repr

/-- The downward scan of migrationJob.ts lines 99-122: `indexToInsert` starts
at `tasks.length`; `existedTaskIndex` runs from `tasks.length - 1` down to
`lowerAny`, and whenever the existing task's descriptor lists the new object
among its parent-lookup objects, `indexToInsert` is overwritten with that
index (so the lowest matching index, written last, wins). -/
def computeInsertIndex (tasks : List ScriptObject) (lowerAny : Nat)
    (o : ScriptObject) : Nat :=
  (((List.range (tasks.length - lowerAny)).reverse).map (fun k => k + lowerAny)).foldl
    (fun acc i =>
      if (tasks.getD i o).parentLookupNames.contains o.name then i else acc)
    tasks.length

/-- One step of the insertion phase of `MigrationJob.setup`
(migrationJob.ts lines 61-128), for one `objectToAdd`. -/
def insertTask (st : SchedState) (o : ScriptObject) : SchedState :=
  if o.name = RECORD_TYPE_SOBJECT_NAME then
    -- RecordType object: unshift to the head; both counters grow.
    ⟨o :: st.tasks, st.lowerAny + 1, st.lowerReadonly + 1⟩
  else if o.isReadonlyObject then
    -- readonly objects: splice at lowerIndexForReadonlyObjects.
    ⟨st.tasks.insertIdx st.lowerReadonly o, st.lowerAny + 1, st.lowerReadonly⟩
  else if st.tasks.length = 0 then
    ⟨[o], st.lowerAny, st.lowerReadonly⟩
  else
    ⟨st.tasks.insertIdx (computeInsertIndex st.tasks st.lowerAny o) o,
      st.lowerAny, st.lowerReadonly⟩

/-- The whole insertion phase of `MigrationJob.setup`: fold `insertTask` over
`script.objects`, starting from the empty task chain and both counters at 0. -/
def insertionPhase (objects : List ScriptObject) : SchedState :=
  objects.foldl insertTask ⟨[], 0, 0⟩

/-- All ordered pairs (left, right) with left strictly before right, in the
iteration order of the two nested loops of `___putMasterDetailsBefore`
(migrationJob.ts lines 164-177) over the `tempTasks` snapshot. -/
def orderedPairs : List α → List (α × α)
  | [] => []
  | x :: xs => (xs.map (fun y => (x, y))) ++ orderedPairs xs

/-- The splice pair of migrationJob.ts lines 173-174: remove `right` at its
current index and re-insert it at `left`'s pre-removal index. -/
def moveBefore (tasks : List ScriptObject) (left right : ScriptObject) :
    List ScriptObject :=
  let leftTaskIndex := tasks.indexOf left
  let rightTaskIndex := tasks.indexOf right
  (tasks.eraseIdx rightTaskIndex).insertIdx leftTaskIndex right

/-- Embeds `___putMasterDetailsBefore` (migrationJob.ts lines 161-180): iterate over
all ordered pairs of the snapshot `tempTasks` (the input list); whenever the
right task's name is among the left task's parent-master-detail names, splice
the right task to just before the left task in the current list, and record
that a swap happened. Returns the final list and the `swapped` flag. -/
def putMasterDetailsBefore (tasks : List ScriptObject) :
    List ScriptObject × Bool :=
  (orderedPairs tasks).foldl
    (fun acc p =>
      if p.1.parentMasterDetailNames.contains p.2.name then
        (moveBefore acc.1 p.1 p.2, true)
      else acc)
    (tasks, false)

/-- The master-detail fix-up loop of `MigrationJob.setup` (migrationJob.ts
lines 131-134): `for (let iteration = 0; iteration < 10 || !swapped;
iteration++) swapped = ___putMasterDetailsBefore();` with `swapped`
set to `true` at the start. A JS `for` loop runs its body while the condition is
true, so the loop exits only at a condition check with `iteration >= 10` and
`swapped = true`. `fuel` bounds the number of checks we unfold; `none` means
the exit condition was not reached within `fuel` checks. -/
def fixupLoop (fuel : Nat) (tasks : List ScriptObject) (swapped : Bool)
    (iteration : Nat) : Option (List ScriptObject) :=
  match fuel with
  | 0 => none
  | fuel + 1 =>
    if iteration < 10 || !swapped then
      let r := putMasterDetailsBefore tasks
      fixupLoop fuel r.1 r.2 (iteration + 1)
    else
      some tasks

/-- Iterate the fix-up pass a fixed number of times (used to describe the
contents of the `tasks` array while the loop runs). -/
def iteratePass (n : Nat) (tasks : List ScriptObject) : List ScriptObject :=
  match n with
  | 0 => tasks
  | n + 1 => iteratePass n (putMasterDetailsBefore tasks).1

/-- The query-order construction of `MigrationJob.setup` (migrationJob.ts
lines 137-147): first every task with `sourceData.allRecords ||
scriptObject.isLimitedQuery` in execution order, then every task not already
pushed, in execution order. `sourceData.allRecords` reads
`scriptObject.processAllSource`, set earlier in `setup`. -/
def buildQueryTasks (tasks : List ScriptObject) : List ScriptObject :=
  let firstPart := tasks.foldl
    (fun acc t => if processAllSource t || t.isLimitedQuery then acc ++ [t] else acc)
    []
  tasks.foldl (fun acc t => if t ∈ acc then acc else acc ++ [t]) firstPart

/-- Zone rank of a descriptor, as `setup`'s insertion phase orders its three
zones: 0 = the RecordType object, 1 = readonly objects, 2 = everything else. -/
def rank (o : ScriptObject) : Nat :=
  if o.name = RECORD_TYPE_SOBJECT_NAME then 0
  else if o.isReadonlyObject then 1
  else 2

/-- Descriptor A of the spec's scheduler example: no parents, no traits. -/
def soA : ScriptObject :=
  ⟨"A", [], [], false, false, false, false, false, false, false⟩

/-- Descriptor B of the spec's scheduler example: a parent lookup to A. -/
def soB : ScriptObject :=
  ⟨"B", ["A"], [], false, false, false, false, false, false, false⟩

/-- Descriptor C of the spec's scheduler example: a master-detail parent B,
in the reading where the master-detail edge is also listed among the
parent-lookup objects (in Salesforce a master-detail field is a reference
field). -/
def soC : ScriptObject :=
  ⟨"C", ["B"], ["B"], false, false, false, false, false, false, false⟩

/-- Descriptor C of the spec's scheduler example, in the reading where the
master-detail edge is listed only among the parent-master-detail objects. -/
def soC0 : ScriptObject :=
  ⟨"C", [], ["B"], false, false, false, false, false, false, false⟩

/-- Readonly descriptor R with a master-detail parent N (C6 counterexample). -/
def soR : ScriptObject :=
  ⟨"R", [], ["N"], false, false, false, false, false, true, false⟩

/-- Plain descriptor N, the master-detail parent of `soR`. -/
def soN : ScriptObject :=
  ⟨"N", [], [], false, false, false, false, false, false, false⟩

/-- Descriptor Q with the `allRecords` trait (used as a fetch-all example). -/
def soQ : ScriptObject :=
  ⟨"Q", [], [], true, false, false, false, false, false, false⟩

/-- The grouping predicate of the `queryTasks` construction: the code pushes a
task in the first loop iff `task.sourceData.allRecords ||
task.scriptObject.isLimitedQuery`. -/
def isQueryFirst (o : ScriptObject) : Bool :=
  processAllSource o || o.isLimitedQuery

-- ------------------------------------------------------------------ --
-- MigrationJob.retrieveRecords (migrationJob.ts lines 267-367)
-- ------------------------------------------------------------------ --

/-- The mode string handed to `task.retrieveRecords`. -/
inductive RetrieveMode where
  | forwards
  | backwards
  | target
  deriving DecidableEq, Repr

/-- One per-task retrieval invocation: the task, the mode string, and the
`reversed` flag, exactly the arguments of `task.retrieveRecords(mode, rev)`. -/
abbrev RetrieveCall := ScriptObject × RetrieveMode × Bool

/-- One pass loop of `MigrationJob.retrieveRecords`: iterate `queryTasks` in
order, appending the per-task call and folding the per-task Boolean result
into the `retrieved` flag (`retrieved = await task.retrieveRecords(..) ||
retrieved`). `oracle` stands for the external per-task retrieval collaborator's
Boolean result. -/
def runRetrievePass (queryTasks : List ScriptObject)
    (oracle : ScriptObject → RetrieveMode → Bool → Bool)
    (mode : RetrieveMode) (reversed : Bool) : List RetrieveCall × Bool :=
  queryTasks.foldl
    (fun acc t => (acc.1 ++ [(t, mode, reversed)], oracle t mode reversed || acc.2))
    ([], false)

/-- Embeds `MigrationJob.retrieveRecords`: the six pass loops in source order —
STEP 1 source forwards; STEP 2 passes 1 and 2 source backwards, passes 3
and 4 source forwards in reverse mode; STEP 3 target. Returns the full call
trace and the per-pass `retrieved` flags (used only for logging). -/
def retrieveRecords (queryTasks : List ScriptObject)
    (oracle : ScriptObject → RetrieveMode → Bool → Bool) :
    List RetrieveCall × List Bool :=
  let p1 := runRetrievePass queryTasks oracle .forwards false
  let p2 := runRetrievePass queryTasks oracle .backwards false
  let p3 := runRetrievePass queryTasks oracle .backwards false
  let p4 := runRetrievePass queryTasks oracle .forwards true
  let p5 := runRetrievePass queryTasks oracle .forwards true
  let p6 := runRetrievePass queryTasks oracle .target false
  (p1.1 ++ p2.1 ++ p3.1 ++ p4.1 ++ p5.1 ++ p6.1,
   [p1.2, p2.2, p3.2, p4.2, p5.2, p6.2])

-- ------------------------------------------------------------------ --
-- MigrationJob.updateRecords (migrationJob.ts lines 369-461)
-- ------------------------------------------------------------------ --

/-- Observable events of `updateRecords`: a task reporting its
missing-parent-lookup rows for one pass, the abort prompt (with the count it
displays), the warning (with the count it displays), and a write of the
missing-lookup report file. -/
inductive UpdEvent (Row : Type) where
  | taskReport (rows : List Row)
  | prompt (missingCount : Nat)
  | warn (missingCount : Nat)
  | saveFile (rows : List Row)
  deriving DecidableEq

/-- Running state of `updateRecords`: the `noAbortPrompt` flag, the job-wide
`allMissingParentLookups` accumulator, the event trace, whether the abort
prompt unwound the run, and the contents last written to the missing-lookup
report file. -/
structure UpdState (Row : Type) where
  noAbortPrompt : Bool
  allMissingParentLookups : List Row
  events : List (UpdEvent Row)
  aborted : Bool
  saved : Option (List Row)

/-- Initial state of `updateRecords` (migrationJob.ts lines 378-381). -/
def initUpdState : UpdState Row :=
  ⟨false, [], [], false, none⟩

/-- One `task.updateRecords` invocation of either pass loop (migrationJob.ts
lines 385-393 and 415-423), given the task's missing-parent-lookup list `r`
for this pass. Modelled from the spec: the external `task.updateRecords`
(migrationJobTask.ts, not under src/) invokes the missing-lookup callback
precisely when the task "reports a non-empty missing-lookup list", and the
external `Common.abortWithPrompt` (common.ts, not under src/) runs its
save-report callback and unwinds the job when the user answers abort, and
returns normally when the user answers continue. Inside the callback the code
first concatenates `r` onto the accumulator, then prompts (first time) or
warns (afterwards); `noAbortPrompt := true` runs only after the prompt
returns. -/
def updateTaskStep (answerContinue : Bool) (st : UpdState Row) (r : List Row) :
    UpdState Row :=
  if st.aborted then st
  else
    let st1 : UpdState Row := { st with events := st.events ++ [.taskReport r] }
    if r.isEmpty then st1
    else
      let st2 : UpdState Row :=
        { st1 with allMissingParentLookups := st1.allMissingParentLookups ++ r }
      if st2.noAbortPrompt then
        { st2 with events := st2.events ++ [.warn r.length] }
      else if answerContinue then
        { st2 with events := st2.events ++ [.prompt r.length], noAbortPrompt := true }
      else
        { st2 with events := st2.events ++ [.prompt r.length],
                   saved := some st2.allMissingParentLookups, aborted := true }

/-- Embeds `MigrationJob.updateRecords`: the forwards pass over every task in
execution order, then — only when the target side is a live org — the
backwards pass over every task, both sharing `noAbortPrompt` and the
accumulator; finally (when no abort unwound the run) the accumulated
missing-lookup rows are written to the report file (migrationJob.ts line
436). `forward`/`backward` give each task's missing-lookup list for the
respective pass, in execution order. -/
def updateRecordsRun (forward backward : List (List Row))
    (targetIsOrg answerContinue : Bool) : UpdState Row :=
  let reports := forward ++ (if targetIsOrg then backward else [])
  let st := reports.foldl (updateTaskStep answerContinue) initUpdState
  if st.aborted then st
  else
    { st with events := st.events ++ [.saveFile st.allMissingParentLookups],
              saved := some st.allMissingParentLookups }

/-- The per-pass missing-lookup lists reported by tasks, read off a trace. -/
def reportedRows (evs : List (UpdEvent Row)) : List (List Row) :=
  evs.filterMap (fun e => match e with | .taskReport r => some r | _ => none)

/-- Number of abort-prompt invocations in a trace. -/
def promptCount (evs : List (UpdEvent Row)) : Nat :=
  (evs.filter (fun e => match e with | .prompt _ => true | _ => false)).length

/-- One step of the reference trace, following the spec's words: every task
report is recorded; a non-empty report prompts if no non-empty report came
before and warns otherwise. The Boolean is "some earlier report was
non-empty". -/
def specMissingLookupStep (acc : List (UpdEvent Row) × Bool) (r : List Row) :
    List (UpdEvent Row) × Bool :=
  (acc.1 ++ [.taskReport r] ++
     (if r.isEmpty then []
      else if acc.2 then [.warn r.length] else [.prompt r.length]),
   acc.2 || !r.isEmpty)

/-- Reference trace for the claims' statement of the missing-lookup protocol,
written from the spec's words (section 4.4): the first non-empty report
prompts, every later non-empty report warns, and at job end the concatenation
of all reports is persisted. -/
def specMissingLookupEvents (reports : List (List Row)) : List (UpdEvent Row) :=
  (reports.foldl specMissingLookupStep ([], false)).1
    ++ [.saveFile reports.flatten]

-- ------------------------------------------------------------------ --
-- CachedCSVContent (migrationJob.ts lines 651-685) and the cache flush
-- ------------------------------------------------------------------ --

/-- Embeds `CachedCSVContent`: the path → (row id → row) cache, the set of mutated
("dirty") file paths, and the synthetic-ID counter. JS `Map`/`Set` iterate in
insertion order with unique keys; they are embedded as association lists. -/
structure CachedCSVContent (Row : Type) where
  csvDataCacheMap : List (String × List (String × Row))
  updatedFilenames : List String
  idCounter : Nat
  deriving DecidableEq

/-- Mirrors `CachedCSVContent.clear` (also the constructor): empty maps and the
counter seeded at 1. -/
def clearCache : CachedCSVContent Row :=
  ⟨[], [], 1⟩

/-- Digit character of a decimal digit. -/
def digitChar (d : Nat) : Char :=
  match d with
  | 0 => '0'
  | 1 => '1'
  | 2 => '2'
  | 3 => '3'
  | 4 => '4'
  | 5 => '5'
  | 6 => '6'
  | 7 => '7'
  | 8 => '8'
  | _ => '9'

/-- The `k` low decimal digits of `n`, most significant first. -/
def padDigits : Nat → Nat → List Char
  | 0, _ => []
  | k + 1, n => digitChar (n / 10 ^ k % 10) :: padDigits k n

/-- Modelled from the spec: `Common.addLeadnigZeros` (common.ts, not under
src/) renders the counter as a fixed-width zero-padded decimal field —
"Synthetic ID: 2-letter prefix + 16-digit zero-padded decimal" (spec
section 6), "fixed prefix + fixed-width zero-padded decimal counter, e.g. a
16-digit field" (spec section 4.3). For `num < 10 ^ size` this is exactly the
decimal rendering of `num` left-padded with zeros to `size` digits. -/
def addLeadnigZeros (num size : Nat) : String :=
  String.mk (padDigits size num)

/-- Mirrors `CachedCSVContent.nextId` (migrationJob.ts line 671): returns
`"ID" + addLeadnigZeros(idCounter++, 16)` and the post-increment state. -/
def nextId (c : CachedCSVContent Row) : String × CachedCSVContent Row :=
  ("ID" ++ addLeadnigZeros c.idCounter 16, { c with idCounter := c.idCounter + 1 })

/-- The sequence of synthetic IDs produced by `n` successive `nextId` calls
starting from cache state `c`. -/
def idsFrom (c : CachedCSVContent Row) : Nat → List String
  | 0 => []
  | n + 1 => (nextId c).1 :: idsFrom (nextId c).2 n

/-- Decimal value denoted by a digit string. -/
def decimalValue (s : String) : Nat :=
  s.data.foldl (fun a c => 10 * a + (c.toNat - 48)) 0

/-- Embeds `MigrationJob.saveCachedCsvDataFiles` (migrationJob.ts lines 494-504):
walk the cached file paths in map order and, for each path in
`updatedFilenames`, write that entry's row values back to its file. Returns
the file writes performed, in order. -/
def saveCachedCsvDataFiles (c : CachedCSVContent Row) : List (String × List Row) :=
  c.csvDataCacheMap.foldl
    (fun ws e =>
      if c.updatedFilenames.contains e.1 then ws ++ [(e.1, e.2.map Prod.snd)]
      else ws)
    []

/-- Pairs `saveCachedCsvDataFiles` with the cache state it leaves behind:
the method only reads the cache — in particular it does not remove written
paths from `updatedFilenames` — so the state component is unchanged. -/
def saveCachedCsvDataFilesStep (c : CachedCSVContent Row) :
    List (String × List Row) × CachedCSVContent Row :=
  (saveCachedCsvDataFiles c, c)

-- ------------------------------------------------------------------ --
-- ApiEngineBase.processCRUDApiJobAsync (ApiEngineBase.ts lines 140-160)
-- ------------------------------------------------------------------ --

/-- Mirrors `ApiEngineBase.writeToTargetCSVFileAsync` (ApiEngineBase.ts lines
209-213): writes the records to the target CSV file only when
`createTargetCSVFiles` is set. Returns the file writes performed. -/
def writeToTargetCSVFile (createTargetCSVFiles : Bool) (records : List Rec) :
    List (List Rec) :=
  if createTargetCSVFiles then [records] else []

/-- The chunk loop of `ApiEngineBase.processCRUDApiJobAsync`: each element of
the list is the (external) result of processing one chunk, `none` standing
for the JS `null` error result. On the first `none` the method writes an
empty record list to the target CSV file and returns `null`; otherwise each
chunk's records are concatenated onto the accumulator, and after the last
chunk the accumulated records are written and returned. -/
def processCRUDApiJobAux (createTargetCSVFiles : Bool) :
    List (Option (List Rec)) → List Rec → List (List Rec) × Option (List Rec)
  | [], acc => (writeToTargetCSVFile createTargetCSVFiles acc, some acc)
  | none :: _, _ => (writeToTargetCSVFile createTargetCSVFiles [], none)
  | some rs :: rest, acc => processCRUDApiJobAux createTargetCSVFiles rest (acc ++ rs)

/-- Embeds `ApiEngineBase.processCRUDApiJobAsync` (ApiEngineBase.ts lines 140-160),
starting from the empty `allResultRecords` accumulator. -/
def processCRUDApiJob (createTargetCSVFiles : Bool)
    (chunkResults : List (Option (List Rec))) : List (List Rec) × Option (List Rec) :=
  processCRUDApiJobAux createTargetCSVFiles chunkResults []

/-- Invariant of the insertion phase: the task chain splits into the
RecordType zone, the readonly zone and the normal zone, with the two counters
marking the zone boundaries. -/
def SchedInv (st : SchedState) : Prop :=
  ∃ as bs cs,
    st.tasks = as ++ bs ++ cs
    ∧ as.length = st.lowerReadonly
    ∧ as.length + bs.length = st.lowerAny
    ∧ (∀ x ∈ as, rank x = 0)
    ∧ (∀ x ∈ bs, rank x = 1)
    ∧ (∀ x ∈ cs, rank x = 2)

/-- Invariant of the update fold: the accumulator always equals the
concatenation of the reported lists; the trace holds no prompt while
`noAbortPrompt` is unset and at most one prompt overall; the report file is
written only on the abort path, and then already holds the full
accumulator. -/
def UpdInv {Row : Type} (st : UpdState Row) : Prop :=
  st.allMissingParentLookups = (reportedRows st.events).flatten
  ∧ promptCount st.events ≤ 1
  ∧ (st.noAbortPrompt = false → st.aborted = false → promptCount st.events = 0)
  ∧ (st.aborted = false → st.saved = none)
  ∧ (st.aborted = true → st.saved = some (reportedRows st.events).flatten)

-- ================================================================== --
-- Theorems
-- ================================================================== --

-- ------------------------------------------------------------------ --
-- Generic helper lemmas
-- ------------------------------------------------------------------ --

/-- Folding a conditional append over a list collects exactly the filtered,
mapped elements after the initial accumulator. -/
theorem foldl_filter_append (p : α → Bool) (f : α → β) :
    ∀ (l : List α) (init : List β),
      l.foldl (fun acc t => if p t then acc ++ [f t] else acc) init
        = init ++ (l.filter p).map f := by
  intro l
  induction l with
  | nil => intro init; simp
  | cons a t ih =>
    intro init
    by_cases h : p a <;> simp [List.filter_cons, h, ih]

/-- The result of a "keep the last index that satisfies the test" fold is the
initial value or one of the scanned indices. -/
theorem foldl_choice_mem (c : Nat → Bool) :
    ∀ (l : List Nat) (a : Nat),
      l.foldl (fun acc i => if c i then i else acc) a ∈ a :: l := by
  intro l
  induction l with
  | nil => intro a; simp
  | cons i t ih =>
    intro a
    simp only [List.foldl_cons]
    by_cases h : c i
    · simp only [h, if_true]
      rcases List.mem_cons.1 (ih i) with h' | h' <;> simp [h']
    · simp only [h, if_false]
      rcases List.mem_cons.1 (ih a) with h' | h' <;> simp [h']

/-- Inserting at the length of the left part of an append splices between
the two parts. -/
theorem insertIdx_at_append (l1 l2 : List α) (x : α) :
    (l1 ++ l2).insertIdx l1.length x = l1 ++ x :: l2 := by
  induction l1 with
  | nil => simp
  | cons a t ih => simp [List.insertIdx_succ_cons, ih]

/-- Inserting past the left part of an append inserts into the right part. -/
theorem insertIdx_append_add (l1 l2 : List α) (x : α) (j : Nat) :
    (l1 ++ l2).insertIdx (l1.length + j) x = l1 ++ l2.insertIdx j x := by
  induction l1 with
  | nil => simp
  | cons a t ih =>
    have : (a :: t).length + j = (t.length + j) + 1 := by
      simp [Nat.succ_add]
    rw [this]
    simp [List.insertIdx_succ_cons, ih]

-- ------------------------------------------------------------------ --
-- The insertion-phase zone invariant
-- ------------------------------------------------------------------ --

theorem computeInsertIndex_bounds (tasks : List ScriptObject) (la : Nat)
    (o : ScriptObject) (hla : la ≤ tasks.length) :
    la ≤ computeInsertIndex tasks la o ∧ computeInsertIndex tasks la o ≤ tasks.length := by
  have h := foldl_choice_mem
    (fun i => (tasks.getD i o).parentLookupNames.contains o.name)
    (((List.range (tasks.length - la)).reverse).map (fun k => k + la))
    tasks.length
  rw [List.mem_cons] at h
  rcases h with h | h
  · unfold computeInsertIndex
    rw [h]
    exact ⟨hla, le_refl _⟩
  · rw [List.mem_map] at h
    obtain ⟨k, hk, hke⟩ := h
    rw [List.mem_reverse, List.mem_range] at hk
    unfold computeInsertIndex
    rw [← hke]
    omega

theorem insertTask_inv (st : SchedState) (o : ScriptObject) (h : SchedInv st) :
    SchedInv (insertTask st o) := by
  obtain ⟨as, bs, cs, htasks, hlr, hla, ha, hb, hc⟩ := h
  unfold insertTask
  by_cases h1 : o.name = RECORD_TYPE_SOBJECT_NAME
  · rw [if_pos h1]
    refine ⟨o :: as, bs, cs, by simp [htasks],
      by simp only [List.length_cons]; omega, by simp only [List.length_cons]; omega, ?_, hb, hc⟩
    intro x hx
    rcases List.mem_cons.1 hx with h' | h'
    · subst h'; simp [rank, h1]
    · exact ha x h'
  · rw [if_neg h1]
    by_cases h2 : o.isReadonlyObject = true
    · rw [if_pos h2]
      refine ⟨as, o :: bs, cs, ?_, by simpa using hlr,
        by simp only [List.length_cons]; omega, ha, ?_, hc⟩
      · rw [htasks, ← hlr, List.append_assoc, insertIdx_at_append]
        simp
      · intro x hx
        rcases List.mem_cons.1 hx with h' | h'
        · subst h'; simp [rank, h1, h2]
        · exact hb x h'
    · rw [if_neg h2]
      by_cases h3 : st.tasks.length = 0
      · rw [if_pos h3]
        have : as = [] ∧ bs = [] ∧ cs = [] := by
          have := htasks ▸ h3
          simp only [List.length_append] at this
          constructor
          · exact List.eq_nil_of_length_eq_zero (by omega)
          constructor
          · exact List.eq_nil_of_length_eq_zero (by omega)
          · exact List.eq_nil_of_length_eq_zero (by omega)
        obtain ⟨e1, e2, e3⟩ := this
        refine ⟨[], [], [o], by simp, ?_, ?_, by simp, by simp, ?_⟩
        · subst e1; simpa using hlr
        · subst e1 e2; simpa using hla
        · intro x hx
          rcases List.mem_singleton.1 hx with h'
          subst h'; simp [rank, h1, h2]
      · rw [if_neg h3]
        have hlalen : st.lowerAny ≤ st.tasks.length := by
          rw [htasks, ← hla]; simp only [List.length_append]; omega
        obtain ⟨hb1, hb2⟩ := computeInsertIndex_bounds st.tasks st.lowerAny o hlalen
        set idx := computeInsertIndex st.tasks st.lowerAny o with hidx
        have hsplit : idx = (as ++ bs).length + (idx - st.lowerAny) := by
          simp only [List.length_append]
          omega
        have hlen : st.tasks.length = as.length + (bs.length + cs.length) := by
          rw [htasks]; simp only [List.length_append]; omega
        have hj : idx - st.lowerAny ≤ cs.length := by omega
        refine ⟨as, bs, cs.insertIdx (idx - st.lowerAny) o, ?_, hlr, hla, ha, hb, ?_⟩
        · dsimp only
          rw [htasks]
          nth_rewrite 1 [hsplit]
          exact insertIdx_append_add (as ++ bs) cs o (idx - st.lowerAny)
        · intro x hx
          rcases (List.mem_insertIdx hj).1 hx with h' | h'
          · subst h'; simp [rank, h1, h2]
          · exact hc x h'

theorem schedInv_foldl (l : List ScriptObject) :
    ∀ st, SchedInv st → SchedInv (l.foldl insertTask st) := by
  induction l with
  | nil => intro st h; exact h
  | cons o t ih =>
    intro st h
    exact ih _ (insertTask_inv st o h)

theorem schedInv_insertionPhase (objects : List ScriptObject) :
    SchedInv (insertionPhase objects) := by
  exact schedInv_foldl objects ⟨[], 0, 0⟩ ⟨[], [], [], rfl, rfl, rfl, by simp, by simp, by simp⟩

/-- A task list on which one fix-up pass neither moves anything nor reports a
swap keeps the loop of `setup` running forever: once `swapped` is false, the
loop condition `iteration < 10 || !swapped` is true at every later check. -/
theorem fixupLoop_stable_none (t : List ScriptObject)
    (h : putMasterDetailsBefore t = (t, false)) :
    ∀ fuel it, fixupLoop fuel t false it = none := by
  intro fuel
  induction fuel with
  | zero => intro it; rfl
  | succ n ih =>
    intro it
    simp only [fixupLoop, Bool.not_false, Bool.or_true, if_true, h]
    exact ih (it + 1)

/-- A pass that leaves the list unchanged and reports no swap is a fixed
point of repeated passes. -/
theorem iteratePass_stable (t : List ScriptObject)
    (h : putMasterDetailsBefore t = (t, false)) :
    ∀ n, iteratePass n t = t := by
  intro n
  induction n with
  | zero => rfl
  | succ n ih => simpa [iteratePass, h] using ih

/-- C1. The claim says the master-detail fix-up phase of `MigrationJob.setup`
"repeats the swap pass only while a swap occurred, up to a fixed cap of 10
iterations, and always terminates". It does not: the loop condition is
`iteration < 10 || !swapped`, and a JS `for` loop runs while its condition is
true, so as soon as a pass reports no swap at iteration >= 10 the loop spins
forever. On the single-descriptor set `[soA]` (no master-detail edges at all,
so every pass reports `swapped = false`) the loop's exit condition is never
reached, for any amount of fuel. -/
theorem c1_setup_fixup_loop_nonterminating :
    ∀ fuel, fixupLoop fuel [soA] true 0 = none := by
  intro fuel
  match fuel with
  | 0 => rfl
  | n + 1 =>
    have hpass : putMasterDetailsBefore [soA] = ([soA], false) := by decide
    simp only [fixupLoop]
    rw [if_pos (by decide)]
    simp only [hpass]
    exact fixupLoop_stable_none [soA] hpass n 1

/-- C2 counterexample. For the spec's example — A (no parents), B
(lookup to A), C (master-detail parent B), supplied as [C, A, B] — the task
chain built by `setup` is never [A, B, C]: under either reading of C's
descriptor (master-detail edge also listed as a lookup, `soC`, or listed only
as master-detail, `soC0`) the insertion phase and the fix-up pass stabilize
the chain at [B, C, A]. -/
theorem c2_example_order_never_ABC :
    ((insertionPhase [soC, soA, soB]).tasks = [soB, soC, soA]
      ∧ putMasterDetailsBefore [soB, soC, soA] = ([soB, soC, soA], false)
      ∧ [soB, soC, soA].map ScriptObject.name ≠ ["A", "B", "C"])
    ∧ ((insertionPhase [soC0, soA, soB]).tasks = [soC0, soA, soB]
      ∧ putMasterDetailsBefore [soC0, soA, soB] = ([soB, soC0, soA], true)
      ∧ putMasterDetailsBefore [soB, soC0, soA] = ([soB, soC0, soA], false)
      ∧ [soB, soC0, soA].map ScriptObject.name ≠ ["A", "B", "C"]) := by
  decide

/-- C2 as amended. On the spec's example input [C, A, B], after the insertion
phase and any positive number of fix-up passes the task chain's names are
[B, C, A] (for both readings of C's descriptor), and the fix-up loop of
`setup` as coded never reaches its exit condition on this input. -/
theorem c2_example_stabilizes_at_BCA : ∀ n fuel,
    (iteratePass (n + 1) (insertionPhase [soC, soA, soB]).tasks).map ScriptObject.name
        = ["B", "C", "A"]
    ∧ (iteratePass (n + 1) (insertionPhase [soC0, soA, soB]).tasks).map ScriptObject.name
        = ["B", "C", "A"]
    ∧ fixupLoop fuel (insertionPhase [soC, soA, soB]).tasks true 0 = none
    ∧ fixupLoop fuel (insertionPhase [soC0, soA, soB]).tasks true 0 = none := by
  intro n fuel
  have h2 : (insertionPhase [soC, soA, soB]).tasks = [soB, soC, soA] := by decide
  have hp2 : putMasterDetailsBefore [soB, soC, soA] = ([soB, soC, soA], false) := by decide
  have h1 : (insertionPhase [soC0, soA, soB]).tasks = [soC0, soA, soB] := by decide
  have hp1 : putMasterDetailsBefore [soC0, soA, soB] = ([soB, soC0, soA], true) := by decide
  have hp1' : putMasterDetailsBefore [soB, soC0, soA] = ([soB, soC0, soA], false) := by decide
  refine ⟨?_, ?_, ?_, ?_⟩
  · rw [h2]
    simp only [iteratePass, hp2]
    rw [iteratePass_stable _ hp2 n]
    decide
  · rw [h1]
    simp only [iteratePass, hp1]
    rw [iteratePass_stable _ hp1' n]
    decide
  · rw [h2]
    match fuel with
    | 0 => rfl
    | m + 1 =>
      simp only [fixupLoop]
      rw [if_pos (by decide)]
      simp only [hp2]
      exact fixupLoop_stable_none _ hp2 m 1
  · rw [h1]
    match fuel with
    | 0 => rfl
    | 1 =>
      simp only [fixupLoop]
      rw [if_pos (by decide)]
    | m + 2 =>
      simp only [fixupLoop]
      rw [if_pos (by decide)]
      simp only [hp1]
      rw [if_pos (by decide)]
      simp only [hp1']
      exact fixupLoop_stable_none _ hp1' m 2

/-- C6 counterexample. The zone invariant ("readonly entities precede every
non-special, non-readonly entity") does not survive the master-detail fix-up
pass: for the descriptor set [R (readonly, master-detail parent N), N
(plain)], the insertion phase yields [R, N], but the fix-up pass moves N in
front of the readonly task R and the chain then stays at [N, R], where the
plain task N precedes the readonly task R. -/
theorem c6_fixup_breaks_zone_order :
    (insertionPhase [soR, soN]).tasks = [soR, soN]
    ∧ putMasterDetailsBefore [soR, soN] = ([soN, soR], true)
    ∧ putMasterDetailsBefore [soN, soR] = ([soN, soR], false)
    ∧ soR.isReadonlyObject = true
    ∧ soN.isReadonlyObject = false
    ∧ soN.name ≠ RECORD_TYPE_SOBJECT_NAME
    ∧ ¬ List.Pairwise (fun a b => rank a ≤ rank b) [soN, soR] := by
  refine ⟨by decide, by decide, by decide, by decide, by decide, by decide, ?_⟩
  intro h
  have := List.rel_of_pairwise_cons h (List.mem_singleton.2 rfl)
  revert this
  decide

/-- C6 as amended. For every descriptor set, the order produced by the
insertion phase of `MigrationJob.setup` (before the master-detail fix-up
pass) is sorted by zone rank: the RecordType object (rank 0) precedes
readonly objects (rank 1), which precede all remaining objects (rank 2). -/
theorem c6_insertion_phase_zone_order (objects : List ScriptObject) :
    List.Pairwise (fun a b => rank a ≤ rank b) (insertionPhase objects).tasks := by
  obtain ⟨as, bs, cs, htasks, hlr, hla, ha, hb, hc⟩ := schedInv_insertionPhase objects
  rw [htasks]
  rw [List.pairwise_append, List.pairwise_append]
  refine ⟨⟨?_, ?_, ?_⟩, ?_, ?_⟩
  · apply List.pairwise_of_forall_mem_list
    intro a hax b hbx
    rw [ha a hax, ha b hbx]
  · apply List.pairwise_of_forall_mem_list
    intro a hax b hbx
    rw [hb a hax, hb b hbx]
  · intro a hax b hbx
    rw [ha a hax, hb b hbx]
    omega
  · apply List.pairwise_of_forall_mem_list
    intro a hax b hbx
    rw [hc a hax, hc b hbx]
  · intro a hax b hbx
    rw [hc b hbx]
    rcases List.mem_append.1 hax with h' | h'
    · rw [ha a h']; omega
    · rw [hb a h']; omega

/-- One pass of the second `queryTasks` loop: starting from an accumulator
that contains exactly the elements of `l` satisfying `p`, the
push-if-missing fold appends exactly the elements not satisfying `p`. -/
theorem dedup_loop_eq {α : Type} [DecidableEq α] (p : α → Bool) :
    ∀ (l : List α) (acc : List α), l.Nodup → (∀ t ∈ l, (t ∈ acc ↔ p t = true)) →
      l.foldl (fun acc t => if t ∈ acc then acc else acc ++ [t]) acc
        = acc ++ l.filter (fun t => !p t) := by
  intro l
  induction l with
  | nil => intro acc _ _; simp
  | cons t ts ih =>
    intro acc hnd hmem
    have hnd' : ts.Nodup := (List.nodup_cons.1 hnd).2
    have htts : t ∉ ts := (List.nodup_cons.1 hnd).1
    simp only [List.foldl_cons]
    by_cases hpt : p t = true
    · rw [if_pos ((hmem t (List.mem_cons_self t ts)).2 hpt)]
      rw [ih acc hnd' (fun u hu => hmem u (List.mem_cons_of_mem t hu))]
      simp [List.filter_cons, hpt]
    · rw [if_neg (fun hin => hpt ((hmem t (List.mem_cons_self t ts)).1 hin))]
      rw [ih (acc ++ [t]) hnd' ?_]
      · simp only [List.filter_cons]
        have : (!p t) = true := by simp [hpt]
        simp [this]
      · intro u hu
        constructor
        · intro hin
          rcases List.mem_append.1 hin with h' | h'
          · exact (hmem u (List.mem_cons_of_mem t hu)).1 h'
          · exact absurd (List.mem_singleton.1 h') (fun he => htts (he ▸ hu))
        · intro hp'
          exact List.mem_append_left _ ((hmem u (List.mem_cons_of_mem t hu)).2 hp')

/-- C7. For every duplicate-free task list, `queryTasks` as built by
`MigrationJob.setup` is the stable two-group partition of `tasks`: first all
tasks whose source side is fetch-all (`processAllSource`) or whose object is
a limited query, in execution order, then all remaining tasks in execution
order; in particular it is a permutation of `tasks`. -/
theorem c7_queryTasks_stable_partition (tasks : List ScriptObject)
    (hnd : tasks.Nodup) :
    buildQueryTasks tasks
        = tasks.filter isQueryFirst ++ tasks.filter (fun t => !isQueryFirst t)
    ∧ (buildQueryTasks tasks).Perm tasks := by
  have hfirst : tasks.foldl
      (fun acc t => if processAllSource t || t.isLimitedQuery then acc ++ [t] else acc) []
      = tasks.filter isQueryFirst := by
    have := foldl_filter_append isQueryFirst (fun t => t) tasks []
    simpa [isQueryFirst] using this
  have hmain : buildQueryTasks tasks
      = tasks.filter isQueryFirst ++ tasks.filter (fun t => !isQueryFirst t) := by
    unfold buildQueryTasks
    rw [hfirst]
    exact dedup_loop_eq isQueryFirst tasks (tasks.filter isQueryFirst) hnd
      (fun t ht => by
        rw [List.mem_filter]
        exact ⟨fun h => h.2, fun h => ⟨ht, h⟩⟩)
  exact ⟨hmain, hmain ▸ List.filter_append_perm isQueryFirst tasks⟩

/-- C7 witness: the stable partition at the concrete task list [soQ, soA]
(one fetch-all object, one plain object). -/
theorem c7_queryTasks_stable_partition_witness :
    List.Nodup [soQ, soA]
    ∧ (buildQueryTasks [soQ, soA]
        = List.filter isQueryFirst [soQ, soA]
            ++ List.filter (fun t => !isQueryFirst t) [soQ, soA]
      ∧ (buildQueryTasks [soQ, soA]).Perm [soQ, soA]) :=
  ⟨by decide, c7_queryTasks_stable_partition [soQ, soA] (by decide)⟩

/-- The call list of one retrieval pass loop is exactly one call per task of
`queryTasks`, in order, with that pass's mode and reverse flag. -/
theorem runRetrievePass_calls (queryTasks : List ScriptObject)
    (oracle : ScriptObject → RetrieveMode → Bool → Bool)
    (mode : RetrieveMode) (reversed : Bool) :
    (runRetrievePass queryTasks oracle mode reversed).1
      = queryTasks.map (fun t => (t, mode, reversed)) := by
  have key : ∀ (l : List ScriptObject) (init : List RetrieveCall) (b : Bool),
      (l.foldl (fun acc t => (acc.1 ++ [(t, mode, reversed)], oracle t mode reversed || acc.2))
        (init, b)).1 = init ++ l.map (fun t => (t, mode, reversed)) := by
    intro l
    induction l with
    | nil => intro init b; simp
    | cons a t ih => intro init b; simp [ih]
  simpa using key queryTasks [] false

/-- C8. `MigrationJob.retrieveRecords` performs exactly six passes in the
fixed order — source forwards, source backwards, source backwards, source
forwards in reverse mode, source forwards in reverse mode, target — and
within each pass it invokes per-task retrieval once for every task of
`queryTasks` in query order, completing the whole pass before the next pass
begins (the trace of one pass is a contiguous block). -/
theorem c8_retrieve_pass_sequence (queryTasks : List ScriptObject)
    (oracle : ScriptObject → RetrieveMode → Bool → Bool) :
    (retrieveRecords queryTasks oracle).1
      = queryTasks.map (fun t => (t, RetrieveMode.forwards, false))
        ++ queryTasks.map (fun t => (t, RetrieveMode.backwards, false))
        ++ queryTasks.map (fun t => (t, RetrieveMode.backwards, false))
        ++ queryTasks.map (fun t => (t, RetrieveMode.forwards, true))
        ++ queryTasks.map (fun t => (t, RetrieveMode.forwards, true))
        ++ queryTasks.map (fun t => (t, RetrieveMode.target, false))
    ∧ (retrieveRecords queryTasks oracle).2.length = 6 := by
  constructor
  · show (runRetrievePass queryTasks oracle .forwards false).1
        ++ (runRetrievePass queryTasks oracle .backwards false).1
        ++ (runRetrievePass queryTasks oracle .backwards false).1
        ++ (runRetrievePass queryTasks oracle .forwards true).1
        ++ (runRetrievePass queryTasks oracle .forwards true).1
        ++ (runRetrievePass queryTasks oracle .target false).1 = _
    rw [runRetrievePass_calls, runRetrievePass_calls, runRetrievePass_calls,
      runRetrievePass_calls]
  · rfl

/-- C10 helper: a run of successful chunks only extends the accumulator. -/
theorem processCRUDApiJobAux_ok {Rec : Type} (chunks : List (List Rec)) :
    ∀ acc, processCRUDApiJobAux true (chunks.map some) acc
      = ([acc ++ chunks.flatten], some (acc ++ chunks.flatten)) := by
  induction chunks with
  | nil => intro acc; simp [processCRUDApiJobAux, writeToTargetCSVFile]
  | cons c rest ih =>
    intro acc
    simp only [List.map_cons, processCRUDApiJobAux, ih, List.flatten_cons,
      List.append_assoc]

/-- C10. In `ApiEngineBase.processCRUDApiJobAsync` (with target CSV creation
on), if any single chunk's processing yields null, the method immediately
writes an empty record list to the target CSV file and returns null — the
records accumulated from the earlier successful chunks `pre` are discarded
and the chunks `post` after the failing one play no role; when every chunk
succeeds it writes and returns the concatenation of all chunk results. -/
theorem c10_chunk_null_discards {Rec : Type} (pre : List (List Rec))
    (post : List (Option (List Rec))) (chunks : List (List Rec)) :
    processCRUDApiJob true (pre.map some ++ none :: post) = ([[]], none)
    ∧ processCRUDApiJob true (chunks.map some) = ([chunks.flatten], some chunks.flatten) := by
  constructor
  · have key : ∀ (l : List (List Rec)) (acc : List Rec),
        processCRUDApiJobAux true (l.map some ++ none :: post) acc = ([[]], none) := by
      intro l
      induction l with
      | nil => intro acc; simp [processCRUDApiJobAux, writeToTargetCSVFile]
      | cons c rest ih => intro acc; simpa [processCRUDApiJobAux] using ih (acc ++ c)
    exact key pre []
  · simpa using processCRUDApiJobAux_ok chunks []

/-- C3 as amended. `MigrationJob.saveCachedCsvDataFiles` writes exactly the
cached file paths that are marked dirty (in `updatedFilenames`), each with
its cached rows, and no other path; it writes nothing iff no cached path is
dirty; and it leaves the cache state — including the dirty set — unchanged,
so a repeated flush with no intervening change writes the same dirty paths
again rather than nothing (writing nothing requires clearing the cache, as
`clearCachedCSVData` does). -/
theorem c3_flush_writes_exactly_dirty {Row : Type} (c : CachedCSVContent Row) :
    saveCachedCsvDataFiles c
        = (c.csvDataCacheMap.filter (fun e => c.updatedFilenames.contains e.1)).map
            (fun e => (e.1, e.2.map Prod.snd))
    ∧ (saveCachedCsvDataFiles c = []
        ↔ ∀ e ∈ c.csvDataCacheMap, ¬ c.updatedFilenames.contains e.1)
    ∧ (saveCachedCsvDataFilesStep c).2 = c
    ∧ saveCachedCsvDataFiles (clearCache : CachedCSVContent Row) = [] := by
  have hmain : saveCachedCsvDataFiles c
      = (c.csvDataCacheMap.filter (fun e => c.updatedFilenames.contains e.1)).map
          (fun e => (e.1, e.2.map Prod.snd)) := by
    unfold saveCachedCsvDataFiles
    simpa using foldl_filter_append (fun e => c.updatedFilenames.contains e.1)
      (fun e => (e.1, e.2.map Prod.snd)) c.csvDataCacheMap []
  refine ⟨hmain, ?_, rfl, rfl⟩
  rw [hmain]
  constructor
  · intro h e he hd
    have : e ∈ c.csvDataCacheMap.filter (fun e => c.updatedFilenames.contains e.1) :=
      List.mem_filter.2 ⟨he, hd⟩
    rw [List.map_eq_nil_iff.1 h] at this
    exact absurd this (List.not_mem_nil e)
  · intro h
    have : c.csvDataCacheMap.filter (fun e => c.updatedFilenames.contains e.1) = [] := by
      rw [List.filter_eq_nil_iff]
      exact fun e he => by simpa using h e he
    rw [this, List.map_nil]

/-- C3 counterexample. The claim's second half — "invoking the flush again
when no new path has been marked dirty since the previous flush writes
nothing" — fails: the flush never clears `updatedFilenames`, so on a cache
with one dirty entry the first flush writes that file and an immediate
second flush on the state the first one left behind writes it again. -/
theorem c3_reflush_rewrites_dirty_files :
    (saveCachedCsvDataFilesStep
        (⟨[("f.csv", [("1", 42)])], ["f.csv"], 1⟩ : CachedCSVContent Nat)).1
      = [("f.csv", [42])]
    ∧ (saveCachedCsvDataFilesStep
        (saveCachedCsvDataFilesStep
          (⟨[("f.csv", [("1", 42)])], ["f.csv"], 1⟩ : CachedCSVContent Nat)).2).1
      = [("f.csv", [42])] := by
  constructor <;> rfl

/-- Prompt counting distributes over trace concatenation. -/
theorem promptCount_append {Row : Type} (evs evs' : List (UpdEvent Row)) :
    promptCount (evs ++ evs') = promptCount evs + promptCount evs' := by
  unfold promptCount
  rw [List.filter_append, List.length_append]

/-- Reported rows distribute over trace concatenation. -/
theorem reportedRows_append {Row : Type} (evs evs' : List (UpdEvent Row)) :
    reportedRows (evs ++ evs') = reportedRows evs ++ reportedRows evs' := by
  unfold reportedRows
  rw [List.filterMap_append]

theorem updateTaskStep_inv {Row : Type} (answerContinue : Bool)
    (st : UpdState Row) (r : List Row) (h : UpdInv st) :
    UpdInv (updateTaskStep answerContinue st r) := by
  obtain ⟨hacc, hle, hzero, hns, hs⟩ := h
  unfold updateTaskStep
  by_cases hab : st.aborted = true
  · rw [if_pos hab]
    exact ⟨hacc, hle, hzero, hns, hs⟩
  · rw [if_neg hab]
    rw [Bool.not_eq_true] at hab
    by_cases hre : r.isEmpty
    · rw [if_pos hre]
      refine ⟨?_, ?_, ?_, ?_, ?_⟩ <;>
        simp_all [UpdInv, reportedRows_append, promptCount_append, reportedRows,
          promptCount]
    · rw [if_neg hre]
      by_cases hnp : st.noAbortPrompt = true
      · rw [if_pos hnp]
        refine ⟨?_, ?_, ?_, ?_, ?_⟩ <;>
          simp_all [reportedRows_append, promptCount_append, reportedRows, promptCount]
      · rw [if_neg hnp]
        rw [Bool.not_eq_true] at hnp
        have hz : promptCount st.events = 0 := hzero hnp hab
        by_cases hans : answerContinue = true
        · rw [if_pos hans]
          refine ⟨?_, ?_, ?_, ?_, ?_⟩ <;>
            simp_all [reportedRows_append, promptCount_append, reportedRows, promptCount]
        · rw [if_neg hans]
          refine ⟨?_, ?_, ?_, ?_, ?_⟩ <;>
            simp_all [reportedRows_append, promptCount_append, reportedRows, promptCount]

theorem updFold_inv {Row : Type} (answerContinue : Bool)
    (reports : List (List Row)) :
    ∀ st : UpdState Row, UpdInv st →
      UpdInv (reports.foldl (updateTaskStep answerContinue) st) := by
  induction reports with
  | nil => intro st h; exact h
  | cons r rest ih =>
    intro st h
    exact ih _ (updateTaskStep_inv answerContinue st r h)

theorem updInv_init {Row : Type} : UpdInv (initUpdState : UpdState Row) := by
  refine ⟨?_, ?_, ?_, ?_, ?_⟩ <;> simp [initUpdState, reportedRows, promptCount]

/-- Simulation of the update fold against the spec-side reference fold, for
a continue answer: the run never aborts, `noAbortPrompt` tracks the
reference "some earlier report was non-empty" flag, the trace tracks the
reference trace, and the accumulator collects the concatenation of all
reports. -/
theorem updFold_true_spec {Row : Type} (reports : List (List Row)) :
    ∀ (evs : List (UpdEvent Row)) (flag : Bool) (acc : List Row),
      reports.foldl (updateTaskStep true) ⟨flag, acc, evs, false, none⟩
        = ⟨(reports.foldl specMissingLookupStep (evs, flag)).2,
           acc ++ reports.flatten,
           (reports.foldl specMissingLookupStep (evs, flag)).1,
           false, none⟩ := by
  induction reports with
  | nil => intro evs flag acc; simp
  | cons r rest ih =>
    intro evs flag acc
    simp only [List.foldl_cons]
    by_cases hre : r.isEmpty
    · have he : r = [] := List.isEmpty_iff.1 hre
      subst he
      rw [show updateTaskStep true ⟨flag, acc, evs, false, none⟩ []
            = ⟨flag, acc, evs ++ [.taskReport []], false, none⟩ from by
        simp [updateTaskStep]]
      rw [ih]
      simp [specMissingLookupStep]
    · by_cases hf : flag = true
      · subst hf
        rw [show updateTaskStep true ⟨true, acc, evs, false, none⟩ r
              = ⟨true, acc ++ r, evs ++ [.taskReport r] ++ [.warn r.length], false, none⟩ from by
          simp [updateTaskStep, hre]]
        rw [ih]
        simp [specMissingLookupStep, hre]
      · rw [Bool.not_eq_true] at hf
        subst hf
        rw [show updateTaskStep true ⟨false, acc, evs, false, none⟩ r
              = ⟨true, acc ++ r, evs ++ [.taskReport r] ++ [.prompt r.length], false, none⟩ from by
          simp [updateTaskStep, hre]]
        rw [ih]
        simp [specMissingLookupStep, hre]

/-- C4. Across both update passes of `MigrationJob.updateRecords`, the
missing-parent-lookup abort prompt fires at most once per run, whatever the
prompt answer; and with a continue answer the whole event trace equals the
reference trace in which only the first non-empty missing-lookup report
prompts and every subsequent non-empty report (from any task, in either
pass) only warns. -/
theorem c4_prompt_at_most_once {Row : Type}
    (forward backward : List (List Row)) (targetIsOrg : Bool) :
    (∀ answerContinue,
      promptCount (updateRecordsRun forward backward targetIsOrg answerContinue).events ≤ 1)
    ∧ (updateRecordsRun forward backward targetIsOrg true).events
        = specMissingLookupEvents (forward ++ (if targetIsOrg then backward else [])) := by
  constructor
  · intro answerContinue
    unfold updateRecordsRun
    dsimp only
    have hinv := updFold_inv answerContinue
      (forward ++ (if targetIsOrg then backward else [])) initUpdState updInv_init
    set st := (forward ++ (if targetIsOrg then backward else [])).foldl
      (updateTaskStep answerContinue) initUpdState with hst
    by_cases hab : st.aborted = true
    · rw [if_pos hab]
      exact hinv.2.1
    · rw [if_neg hab]
      dsimp only
      rw [promptCount_append]
      have h0 : promptCount ([UpdEvent.saveFile st.allMissingParentLookups] :
          List (UpdEvent Row)) = 0 := by
        simp [promptCount]
      rw [h0, Nat.add_zero]
      exact hinv.2.1
  · unfold updateRecordsRun
    dsimp only
    rw [show (initUpdState : UpdState Row) = ⟨false, [], [], false, none⟩ from rfl]
    rw [updFold_true_spec]
    simp [specMissingLookupEvents]

/-- C5. `MigrationJob.updateRecords` appends every reported missing-lookup
list from both passes onto one job-wide accumulator with no deduplication,
and the missing-lookup report file it persists — at the end of the run, or
from inside the abort prompt when the answer is abort — holds exactly the
concatenation of every list reported up to that point, whatever the answer;
with a continue answer the reported lists are exactly the forward-pass lists
followed by (when the target side is a live org) the backward-pass lists. -/
theorem c5_missing_lookups_accumulated {Row : Type}
    (forward backward : List (List Row)) (targetIsOrg answerContinue : Bool) :
    (updateRecordsRun forward backward targetIsOrg answerContinue).saved
      = some (reportedRows
          (updateRecordsRun forward backward targetIsOrg answerContinue).events).flatten
    ∧ reportedRows (updateRecordsRun forward backward targetIsOrg true).events
        = forward ++ (if targetIsOrg then backward else []) := by
  constructor
  · unfold updateRecordsRun
    dsimp only
    have hinv := updFold_inv answerContinue
      (forward ++ (if targetIsOrg then backward else [])) initUpdState updInv_init
    set st := (forward ++ (if targetIsOrg then backward else [])).foldl
      (updateTaskStep answerContinue) initUpdState with hst
    by_cases hab : st.aborted = true
    · rw [if_pos hab]
      exact hinv.2.2.2.2 hab
    · rw [if_neg hab]
      dsimp only
      rw [reportedRows_append]
      have hnil : reportedRows ([UpdEvent.saveFile st.allMissingParentLookups] :
          List (UpdEvent Row)) = [] := by
        simp [reportedRows]
      rw [hnil, List.append_nil, hinv.1]
  · have hspec : ∀ (reports : List (List Row)) (evs : List (UpdEvent Row)) (flag : Bool),
        reportedRows (reports.foldl specMissingLookupStep (evs, flag)).1
          = reportedRows evs ++ reports := by
      intro reports
      induction reports with
      | nil => intro evs flag; simp
      | cons r rest ih =>
        intro evs flag
        simp only [List.foldl_cons, specMissingLookupStep]
        rw [ih]
        by_cases hre : r.isEmpty <;>
          by_cases hf : flag = true <;>
            simp [hre, hf, reportedRows_append, reportedRows]
    unfold updateRecordsRun
    dsimp only
    rw [show (initUpdState : UpdState Row) = ⟨false, [], [], false, none⟩ from rfl]
    rw [updFold_true_spec]
    dsimp only
    rw [if_neg (by simp : ¬ (false = true))]
    dsimp only
    rw [reportedRows_append, hspec (forward ++ (if targetIsOrg then backward else [])) [] false]
    simp [reportedRows]

theorem padDigits_length (k : Nat) : ∀ n, (padDigits k n).length = k := by
  induction k with
  | zero => intro n; rfl
  | succ k ih => intro n; simp [padDigits, ih]

theorem digitChar_lt_digitChar (a b : Nat) (hb : b < 10) (h : a < b) :
    digitChar a < digitChar b := by
  have ha : a < 10 := lt_trans h hb
  interval_cases a <;> interval_cases b <;> revert h <;> decide

theorem digitChar_toNat (a : Nat) (ha : a < 10) : (digitChar a).toNat = 48 + a := by
  interval_cases a <;> decide

/-- Lexicographic comparison of equal-width digit blocks agrees with numeric
comparison of the rendered values. -/
theorem padDigits_lex (k : Nat) :
    ∀ m n : Nat, m % 10 ^ k < n % 10 ^ k →
      List.Lex (· < ·) (padDigits k m) (padDigits k n) := by
  induction k with
  | zero =>
    intro m n h
    simp [Nat.mod_one] at h
  | succ k ih =>
    intro m n h
    have hmd : m / 10 ^ k % 10 = m % 10 ^ (k + 1) / 10 ^ k := by
      rw [pow_succ, Nat.mod_mul_right_div_self]
    have hnd : n / 10 ^ k % 10 = n % 10 ^ (k + 1) / 10 ^ k := by
      rw [pow_succ, Nat.mod_mul_right_div_self]
    have hmm : m % 10 ^ (k + 1) % 10 ^ k = m % 10 ^ k :=
      Nat.mod_mod_of_dvd m ⟨10, by rw [pow_succ]⟩
    have hnn : n % 10 ^ (k + 1) % 10 ^ k = n % 10 ^ k :=
      Nat.mod_mod_of_dvd n ⟨10, by rw [pow_succ]⟩
    have hdm := Nat.div_add_mod (m % 10 ^ (k + 1)) (10 ^ k)
    have hdn := Nat.div_add_mod (n % 10 ^ (k + 1)) (10 ^ k)
    have hnb : n % 10 ^ (k + 1) / 10 ^ k < 10 := by
      have h1 : n % 10 ^ (k + 1) < 10 ^ (k + 1) :=
        Nat.mod_lt _ (Nat.pos_pow_of_pos _ (by norm_num))
      have h2 : (0:Nat) < 10 ^ k := Nat.pos_pow_of_pos _ (by norm_num)
      rw [Nat.div_lt_iff_lt_mul h2]
      calc n % 10 ^ (k + 1) < 10 ^ (k + 1) := h1
        _ = 10 ^ k * 10 := by rw [pow_succ]
        _ = 10 * 10 ^ k := by ring
    rcases lt_trichotomy (m % 10 ^ (k + 1) / 10 ^ k) (n % 10 ^ (k + 1) / 10 ^ k)
      with hlt | heq | hgt
    · apply List.Lex.rel
      rw [hmd, hnd]
      exact digitChar_lt_digitChar _ _ hnb hlt
    · have hef : 10 ^ k * (m % 10 ^ (k + 1) / 10 ^ k)
          = 10 ^ k * (n % 10 ^ (k + 1) / 10 ^ k) := by rw [heq]
      have htail : m % 10 ^ k < n % 10 ^ k := by omega
      rw [padDigits, padDigits, hmd, hnd, heq]
      exact List.Lex.cons (ih m n htail)
    · exfalso
      have hle : m % 10 ^ (k + 1) / 10 ^ k ≤ n % 10 ^ (k + 1) / 10 ^ k :=
        Nat.div_le_div_right (le_of_lt h)
      omega

/-- String comparison of two synthetic IDs with the same "ID" head reduces to
numeric comparison of the counters they render, for counters within the
16-digit field. -/
theorem nextId_string_lt (m n : Nat) (h : m < n) (hn : n < 10 ^ 16) :
    ("ID" ++ addLeadnigZeros m 16 : String) < "ID" ++ addLeadnigZeros n 16 := by
  rw [String.lt_iff_toList_lt]
  have hdata : ∀ x : Nat,
      ("ID" ++ addLeadnigZeros x 16 : String).toList = 'I' :: 'D' :: padDigits 16 x := by
    intro x
    show ("ID" ++ addLeadnigZeros x 16 : String).data = _
    rw [String.data_append]
    rfl
  rw [hdata, hdata]
  show List.Lex (· < ·) ('I' :: 'D' :: padDigits 16 m) ('I' :: 'D' :: padDigits 16 n)
  apply List.Lex.cons
  apply List.Lex.cons
  apply padDigits_lex
  rw [Nat.mod_eq_of_lt (lt_trans h hn), Nat.mod_eq_of_lt hn]
  exact h

/-- Folding the decimal-digit accumulator over a digit block recovers the
rendered value. -/
theorem padDigits_foldl (k : Nat) :
    ∀ n a : Nat,
      (padDigits k n).foldl (fun a c => 10 * a + (c.toNat - 48)) a
        = a * 10 ^ k + n % 10 ^ k := by
  induction k with
  | zero => intro n a; simp [padDigits, Nat.mod_one]
  | succ k ih =>
    intro n a
    rw [padDigits, List.foldl_cons, ih,
      digitChar_toNat _ (Nat.mod_lt _ (by norm_num))]
    have h1 : 48 + n / 10 ^ k % 10 - 48 = n / 10 ^ k % 10 := by omega
    rw [h1]
    have h2 : n % 10 ^ (k + 1) = n % 10 ^ k + 10 ^ k * (n / 10 ^ k % 10) := by
      rw [pow_succ, Nat.mod_mul]
    rw [h2, pow_succ]
    ring

/-- Every `addLeadnigZeros` rendering used by `nextId` is a 16-character
digit block that decodes back to the counter, for counters within the
field. -/
theorem addLeadnigZeros_spec (c : Nat) (hc : c < 10 ^ 16) :
    (addLeadnigZeros c 16).length = 16 ∧ decimalValue (addLeadnigZeros c 16) = c := by
  constructor
  · show (String.mk (padDigits 16 c)).length = 16
    show (padDigits 16 c).length = 16
    exact padDigits_length 16 c
  · show (padDigits 16 c).foldl (fun a ch => 10 * a + (ch.toNat - 48)) 0 = c
    rw [padDigits_foldl]
    simp only [Nat.zero_mul, Nat.zero_add]
    exact Nat.mod_eq_of_lt hc

/-- The i-th synthetic ID of a run of `nextId` calls renders the starting
counter plus i. -/
theorem idsFrom_getD {Row : Type} :
    ∀ (n : Nat) (c : CachedCSVContent Row) (i : Nat), i < n →
      (idsFrom c n).getD i "" = "ID" ++ addLeadnigZeros (c.idCounter + i) 16 := by
  intro n
  induction n with
  | zero => intro c i h; omega
  | succ n ih =>
    intro c i h
    match i with
    | 0 => simp [idsFrom, nextId]
    | i + 1 =>
      have := ih (nextId c).2 i (by omega)
      rw [show (idsFrom c (n + 1)).getD (i + 1) ""
            = (idsFrom (nextId c).2 n).getD i "" from rfl, this]
      show ("ID" ++ addLeadnigZeros (c.idCounter + 1 + i) 16 : String) = _
      rw [show c.idCounter + 1 + i = c.idCounter + (i + 1) from by omega]

/-- C9. Every `nextId` call in a run that starts from the freshly cleared
cache (counter seeded at 1) returns the two-letter head "ID" followed by the
16-digit zero-padded decimal rendering of the counter — the i-th ID of the
run renders 1 + i, its digit block has 16 characters and decodes back to
1 + i — and the IDs of one run are strictly increasing in string order and
pairwise distinct, for runs within the 16-digit field. -/
theorem c9_nextId_format_increasing_distinct (n i j : Nat)
    (hij : i < j) (hjn : j < n) (hn : n < 10 ^ 16) :
    (idsFrom (clearCache : CachedCSVContent Unit) n).getD i ""
        = "ID" ++ addLeadnigZeros (1 + i) 16
    ∧ (addLeadnigZeros (1 + i) 16).length = 16
    ∧ decimalValue (addLeadnigZeros (1 + i) 16) = 1 + i
    ∧ (idsFrom (clearCache : CachedCSVContent Unit) n).getD i ""
        < (idsFrom (clearCache : CachedCSVContent Unit) n).getD j ""
    ∧ (idsFrom (clearCache : CachedCSVContent Unit) n).getD i ""
        ≠ (idsFrom (clearCache : CachedCSVContent Unit) n).getD j "" := by
  have hi : i < n := lt_trans hij hjn
  have hgi := idsFrom_getD n (clearCache : CachedCSVContent Unit) i hi
  have hgj := idsFrom_getD n (clearCache : CachedCSVContent Unit) j hjn
  have hci : (clearCache : CachedCSVContent Unit).idCounter + i = 1 + i := rfl
  have hcj : (clearCache : CachedCSVContent Unit).idCounter + j = 1 + j := rfl
  rw [hci] at hgi
  rw [hcj] at hgj
  have hbi : 1 + i < 10 ^ 16 := by omega
  have hlt : ("ID" ++ addLeadnigZeros (1 + i) 16 : String)
      < "ID" ++ addLeadnigZeros (1 + j) 16 :=
    nextId_string_lt (1 + i) (1 + j) (by omega) (by omega)
  obtain ⟨hlen, hdec⟩ := addLeadnigZeros_spec (1 + i) hbi
  refine ⟨hgi, hlen, hdec, ?_, ?_⟩
  · rw [hgi, hgj]
    exact hlt
  · rw [hgi, hgj]
    exact ne_of_lt hlt

/-- C9 witness: a run of three IDs; the first two IDs instantiate the format,
ordering and distinctness statement. -/
theorem c9_nextId_format_increasing_distinct_witness :
    (0 < 1 ∧ 1 < 3 ∧ 3 < 10 ^ 16)
    ∧ ((idsFrom (clearCache : CachedCSVContent Unit) 3).getD 0 ""
          = "ID" ++ addLeadnigZeros (1 + 0) 16
      ∧ (addLeadnigZeros (1 + 0) 16).length = 16
      ∧ decimalValue (addLeadnigZeros (1 + 0) 16) = 1 + 0
      ∧ (idsFrom (clearCache : CachedCSVContent Unit) 3).getD 0 ""
          < (idsFrom (clearCache : CachedCSVContent Unit) 3).getD 1 ""
      ∧ (idsFrom (clearCache : CachedCSVContent Unit) 3).getD 0 ""
          ≠ (idsFrom (clearCache : CachedCSVContent Unit) 3).getD 1 "") :=
  ⟨⟨by decide, by decide, by decide⟩,
    c9_nextId_format_increasing_distinct 3 0 1 (by decide) (by decide) (by decide)⟩

end SFDMU
